import Mathlib

/-!
Verification of the mc-server-runner supervisor against its specification.

The definitions below are shallow embeddings of the Go source:
main.go (process supervisor, termination controller, sendCommand),
remote_shell_service.go (SSH console), the websocket console service
(extractAuthTokenFromProtocols, ServeHTTP auth phase, logRing, broadcast,
wsWriter.Write) and named_pipe_linux.go (named pipe reader loop).
Strings written to the child process stdin are modelled as Lean strings,
byte values as natural numbers, Go durations as integers, and the
effectful main event loop as a step function from events to effects.
-/

/-! ## Child process wait and supervisor exit (main.go, wait goroutine and main loop)

The wait goroutine classifies the result of cmd.Wait():
nil (normal exit), an exec.ExitError carrying the child exit status,
or some other unexpected error. -/

/-- Result of cmd.Wait() as discriminated by the goroutine in main.go:
nil error, an exec.ExitError with an exit code, or any other error. -/

inductive WaitResult where
  | normal
  | exited (code : Int)
  | failed
deriving DecidableEq

/-- Value sent on cmdExitChan by the wait goroutine in main.go.
On a nil wait error it sends 0; on an exec.ExitError it sends the child's
exit code; on any other error the goroutine returns without sending. -/

def waitGoroutineSend : WaitResult → Option Int
  | WaitResult.normal => some 0
  | WaitResult.exited c => some c
  | WaitResult.failed => none

/-- Exit code of the supervisor process. The main select loop calls
os.Exit(exitCode) exactly when a value arrives on cmdExitChan, so the
supervisor's exit code is the value the wait goroutine sent, and the
supervisor does not exit through this path when nothing was sent. -/

def supervisorExitCode (w : WaitResult) : Option Int :=
  waitGoroutineSend w

/-! ## Lines injected into the child's stdin (main.go, remote_shell_service.go, websocket service)

Each inbound source produces the exact byte string written to the
process stdin pipe. -/

/-- Test used by the websocket stdin path: strings.HasSuffix(content, newline),
modelled as a test on the final character (equivalent for a one-character
suffix). -/

def hasNewlineSuffix (s : String) : Bool :=
  s.data.getLast? == some '\n'

/-- Bytes written for one SSH session line (handleSession in
remote_shell_service.go): fmt.Sprintf of the line followed by a newline. -/

def handleSessionLineBytes (line : String) : String :=
  line ++ "\n"

/-- Bytes written for one websocket stdin message (handleIncoming in the
websocket service): the content, with a newline appended when the content
does not already end in one. -/

def wsStdinBytes (content : String) : String :=
  if hasNewlineSuffix content then content else content ++ "\n"

/-- Bytes written for one local stdin line (consoleInRoutine in
remote_shell_service.go): the scanned text followed by a newline. -/

def consoleInBytes (text : String) : String :=
  text ++ "\n"

/-- Translation of strings.Join from the Go standard library. -/

def goJoin (sep : String) : List String → String
  | [] => ""
  | [a] => a
  | a :: rest => a ++ sep ++ goJoin sep rest

/-- Bytes written to stdin by sendCommand in main.go when rcon-cli is not
used: the command words joined by single spaces, written verbatim. -/

def sendCommandStdinBytes (cmd : List String) : String :=
  goJoin " " cmd

/-- Bytes written to stdin by stopViaConsole in main.go: the stop command
followed by a newline. -/

def stopViaConsoleBytes (stopCommand : String) : String :=
  stopCommand ++ "\n"

/-! ## Termination controller and main event loop (main.go, select loop) -/

/-- State of the announce-delay timer created by time.AfterFunc in the
SIGTERM branch of the main loop. A nil timer variable is modelled by
none; a created timer is pending until it either fires or is stopped by
a successful timer.Stop() call. -/

inductive TimerState where
  | pending
  | fired
  | stopped
deriving DecidableEq

/-- Mutable state of the main select loop: the timer variable. -/

structure MainState where
  timer : Option TimerState
deriving DecidableEq

/-- Configuration and environment of the main loop: the parsed flags that
the loop consults, whether rcon-cli is available (hasRconCli), and whether
an rcon invocation fails when attempted. Durations are modelled as
integers (Go time.Duration is a signed integer count). -/

structure MainArgs where
  stopServerAnnounceDelay : Int
  stopDuration : Int
  stopCommand : String
  hasRcon : Bool
  rconFails : Bool
deriving DecidableEq

/-- Events the main select loop can wake on, plus the announce-delay
AfterFunc callback firing. -/

inductive MainEvent where
  | sigterm
  | sigusr1
  | announceTimerFired
  | pipeErr
  | childExit (code : Int)
deriving DecidableEq

/-- Externally visible effects of one main-loop step: an rcon-cli
invocation, a write to the child's stdin pipe, arming the kill timer or
the announce-delay timer (with the configured duration), and process
exit. -/

inductive Effect where
  | rconExec (cmd : List String)
  | stdinWrite (s : String)
  | armKillTimer (d : Int)
  | armAnnounceTimer (d : Int)
  | exitWith (code : Int)
deriving DecidableEq

/-- Translation of sendCommand in main.go: when rcon-cli is available the
command is run through it, otherwise the space-joined command text is
written to stdin (with no trailing newline, see sendCommandStdinBytes). -/

def sendCommand (hasRcon : Bool) (cmd : List String) : List Effect :=
  if hasRcon then [Effect.rconExec cmd] else [Effect.stdinWrite (sendCommandStdinBytes cmd)]

/-- Announcement text of announceStop in main.go, with the delay's
seconds rendered by toString in place of the %0.f float formatting. -/

def announceMessage (delaySeconds : Int) : String :=
  "Server shutting down in " ++ toString delaySeconds ++ " seconds"

/-- Translation of announceStop in main.go: sendCommand with the say
command; a sendCommand error is only logged. -/

def announceStop (hasRcon : Bool) (delaySeconds : Int) : List Effect :=
  sendCommand hasRcon ["say", announceMessage delaySeconds]

/-- Translation of terminate in main.go: default the stop command to
"stop"; deliver it through rcon-cli when available, falling back to
stopViaConsole when the rcon invocation fails, else through
stopViaConsole directly; then arm a kill timer when the configured stop
duration is nonzero. -/

def terminate (hasRcon rconFails : Bool) (stopDuration : Int) (stopCommand : String) :
    List Effect :=
  let sc := if stopCommand = "" then "stop" else stopCommand
  (if hasRcon then
    if rconFails then
      [Effect.rconExec [sc], Effect.stdinWrite (stopViaConsoleBytes sc)]
    else
      [Effect.rconExec [sc]]
  else
    [Effect.stdinWrite (stopViaConsoleBytes sc)]) ++
  (if stopDuration ≠ 0 then [Effect.armKillTimer stopDuration] else [])

/-- Translation of the main select loop body in main.go as a step
function from one event to the successor state and the effects performed.
SIGTERM: with a positive announce delay, announce and arm the delay
timer; otherwise terminate at once (timer variable untouched).
SIGUSR1: with a non-nil timer, a successful timer.Stop() (timer still
pending) terminates at once; a failed Stop() (timer already fired or
already stopped) only logs; with a nil timer, terminate at once.
The AfterFunc callback fires only on a pending timer and terminates.
A named-pipe error is only logged. A child exit code exits the process. -/

def mainStep (a : MainArgs) (st : MainState) : MainEvent → MainState × List Effect
  | MainEvent.sigterm =>
    if 0 < a.stopServerAnnounceDelay then
      (⟨some TimerState.pending⟩,
        announceStop a.hasRcon a.stopServerAnnounceDelay ++
          [Effect.armAnnounceTimer a.stopServerAnnounceDelay])
    else
      (st, terminate a.hasRcon a.rconFails a.stopDuration a.stopCommand)
  | MainEvent.sigusr1 =>
    match st.timer with
    | some TimerState.pending =>
      (⟨some TimerState.stopped⟩, terminate a.hasRcon a.rconFails a.stopDuration a.stopCommand)
    | some TimerState.fired => (st, [])
    | some TimerState.stopped => (st, [])
    | none => (st, terminate a.hasRcon a.rconFails a.stopDuration a.stopCommand)
  | MainEvent.announceTimerFired =>
    match st.timer with
    | some TimerState.pending =>
      (⟨some TimerState.fired⟩, terminate a.hasRcon a.rconFails a.stopDuration a.stopCommand)
    | _ => (st, [])
  | MainEvent.pipeErr => (st, [])
  | MainEvent.childExit c => (st, [Effect.exitWith c])

/-- Test for a kill-timer arming effect. -/

def isArmKill : Effect → Bool
  | Effect.armKillTimer _ => true
  | _ => false

/-- Number of forced kills produced by a list of effects: each armed kill
timer fires its callback exactly once at expiry (time.AfterFunc), and the
callback kills the child only when the supervisor is still waiting, that
is when the child has not exited within the armed duration. -/

def killsFired (effects : List Effect) (childExitedWithin : Int → Bool) : Nat :=
  effects.countP (fun e =>
    match e with
    | Effect.armKillTimer d => !childExitedWithin d
    | _ => false)

/-! ## Named pipe reader loop (named_pipe_linux.go, handleNamedPipe goroutine)

One loop iteration either observes a cancelled context and returns, or
opens the FIFO. An open error is sent on the error channel and the
goroutine returns. A successful open is followed by io.Copy into stdin:
a copy error is sent on the error channel, but the loop then closes the
file and starts the next iteration; a copy that ends at EOF simply closes
the file and starts the next iteration. A run of the goroutine is driven
by the script of environment outcomes of successive iterations. -/

/-- Environment outcome of one iteration of the named-pipe loop. -/

inductive PipeStep where
  | cancelled
  | openFail
  | copyOk
  | copyFail
deriving DecidableEq

/-- Number of errors the named-pipe goroutine sends on its error channel
while consuming the script. -/

def namedPipeReports : List PipeStep → Nat
  | [] => 0
  | PipeStep.cancelled :: _ => 0
  | PipeStep.openFail :: _ => 1
  | PipeStep.copyOk :: rest => namedPipeReports rest
  | PipeStep.copyFail :: rest => 1 + namedPipeReports rest

/-- Whether the named-pipe goroutine has returned (its loop terminated)
by the end of the script. -/

def namedPipeStopped : List PipeStep → Bool
  | [] => false
  | PipeStep.cancelled :: _ => true
  | PipeStep.openFail :: _ => true
  | PipeStep.copyOk :: rest => namedPipeStopped rest
  | PipeStep.copyFail :: rest => namedPipeStopped rest

/-! ## Websocket authentication (websocket service, extractAuthTokenFromProtocols and ServeHTTP)

Go panics are modelled by an Option result: none stands for a panic
(index out of range), some (token, ok) for a normal return. -/

/-- Translation of strings.Split with a single-character comma separator,
over the characters of the string. Splitting always yields at least one
(possibly empty) field. -/

def splitComma : List Char → List (List Char)
  | [] => [[]]
  | c :: rest =>
    match splitComma rest with
    | [] => [[c]]
    | g :: gs => if c = ',' then [] :: g :: gs else (c :: g) :: gs

/-- Translation of strings.TrimSpace over the characters of the string:
drop leading and trailing whitespace. -/

def goTrim (s : List Char) : List Char :=
  ((s.dropWhile Char.isWhitespace).reverse.dropWhile Char.isWhitespace).reverse

/-- Loop body of extractAuthTokenFromProtocols: scan the comma-separated
protocol values (the remaining suffix paired with the running index i) of
the full list. When a trimmed value equals the expected protocol name,
the source guards the following access with the comparison i+1 greater
than the length, which never fires for an in-range i; the access of the
element at i+1 therefore panics (modelled as none) when the match is the
final element. A nonempty trimmed token returns it; an empty one falls
through to the next iteration. -/

def extractScan (protocols : List (List Char)) (expectedProto : List Char) :
    List (List Char) → Nat → Option (List Char × Bool)
  | [], _ => some ([], false)
  | p :: rest, i =>
    if goTrim p = expectedProto then
      if protocols.length < i + 1 then some ([], false)
      else
        match protocols.get? (i + 1) with
        | none => none
        | some q =>
          if goTrim q ≠ [] then some (goTrim q, true)
          else extractScan protocols expectedProto rest (i + 1)
    else extractScan protocols expectedProto rest (i + 1)

/-- Translation of extractAuthTokenFromProtocols in the websocket
service: an absent (empty) Sec-WebSocket-Protocol header yields an empty
token and false; otherwise the header is split on commas and scanned from
index 0. -/

def extractAuthTokenFromProtocols (protoHeader expectedProto : String) :
    Option (List Char × Bool) :=
  if protoHeader.data = [] then some ([], false)
  else
    extractScan (splitComma protoHeader.data) expectedProto.data
      (splitComma protoHeader.data) 0

/-- Structured JSON auth-error body. -/

structure authErrorMessage where
  typ : String
  reason : String
deriving DecidableEq

/-- Outcome of the origin and token checks at the head of
websocketServer.ServeHTTP, before the websocket upgrade. -/

inductive AuthOutcome where
  | forbidden403 (body : authErrorMessage)
  | unauthorized401 (body : authErrorMessage)
  | panicked
  | accepted
deriving DecidableEq

/-- Translation of the origin-check and token-auth phase of
websocketServer.ServeHTTP: reject 403 when the origin check is enabled
and the Origin header is not in the trusted list; then, when token auth
is enabled, extract the token from the Sec-WebSocket-Protocol header and
reject 401 with an invalid-password body when it is absent or does not
equal the websocket password; a panic in the extraction aborts the
handler. Only an accepted outcome goes on to upgrade and register a
session. -/

def serveHTTPAuthPhase (disableOriginCheck : Bool) (origin : String)
    (trustedOrigins : List String) (disableAuth : Bool)
    (protoHeader wsPassword : String) : AuthOutcome :=
  if !disableOriginCheck && !(trustedOrigins.contains origin) then
    AuthOutcome.forbidden403 ⟨"auth_err", "origin not allowed"⟩
  else if !disableAuth then
    match extractAuthTokenFromProtocols protoHeader "mc-server-runner-ws-v1" with
    | none => AuthOutcome.panicked
    | some (token, found) =>
      if !found || token ≠ wsPassword.data then
        AuthOutcome.unauthorized401 ⟨"auth_err", "invalid password"⟩
      else AuthOutcome.accepted
  else AuthOutcome.accepted

/-- Session registration performed by ServeHTTP after the auth phase:
only an accepted outcome adds the new session id to the client registry. -/

def serveHTTPRegister (outcome : AuthOutcome) (clients : List Nat) (newId : Nat) :
    List Nat :=
  match outcome with
  | AuthOutcome.accepted => newId :: clients
  | _ => clients

/-! ## Log ring buffer (websocket service, logRing)

The container/ring cycle of logBufferSize nodes with a current pointer is
modelled as an index map on Z mod cap together with the current index:
node j of the cycle holds buf j (nil values are none), and idx is the
position of the current pointer. -/

/-- Fixed-capacity ring of recent output lines. -/

structure logRing where
  cap : Nat
  idx : Nat
  buf : Nat → Option String

/-- Translation of newLogRing: a fresh ring of the configured size with
every node value nil and the pointer at node 0. -/

def newLogRing (logBufferSize : Nat) : logRing :=
  { cap := logBufferSize, idx := 0, buf := fun _ => none }

/-- Translation of logRing.add: advance the pointer to the next node and
store the string there. -/

def logRing.add (lr : logRing) (s : String) : logRing :=
  { cap := lr.cap
    idx := (lr.idx + 1) % lr.cap
    buf := fun j => if j = (lr.idx + 1) % lr.cap then some s else lr.buf j }

/-- Translation of logRing.getAll: starting from the node after the
current pointer, visit all cap nodes in cyclic order and collect the
non-nil values. -/

def logRing.getAll (lr : logRing) : List String :=
  ((List.range lr.cap).map (fun t => lr.buf ((lr.idx + 1 + t) % lr.cap))).filterMap id

/-- Sequentially add a list of lines to a ring, oldest first. -/

def logRing.addAll (lr : logRing) (ls : List String) : logRing :=
  ls.foldl logRing.add lr

/-! ## Websocket broadcast and output writer (websocket service, broadcast and wsWriter.Write) -/

/-- Registered websocket client as the broadcast loop sees it: its
session id and whether the wsjson.Write to it fails. -/

structure WsClientB where
  id : Nat
  writeFails : Bool
deriving DecidableEq

/-- Typed JSON envelope built by broadcast for an output message. When
the message type is neither stdout nor stderr the envelope variable is
left nil (none). -/

inductive BroadcastEnvelope where
  | stdoutMsg (content : String)
  | stderrMsg (content : String)
deriving DecidableEq

/-- Envelope construction switch of broadcast. -/

def mkEnvelope (msgType : String) (msg : String) : Option BroadcastEnvelope :=
  if msgType = "stdout" then some (BroadcastEnvelope.stdoutMsg msg)
  else if msgType = "stderr" then some (BroadcastEnvelope.stderrMsg msg)
  else none

/-- Translation of websocketServer.broadcast: iterate over the client
registry; for each client attempt the write of the envelope under the
client's write lock; on a write error the client's connection is closed
and the client is deleted from the registry, and the iteration continues
with the remaining clients. The result is the list of successful
deliveries (session id and envelope) and the list of session ids still
registered afterwards. -/

def broadcast (clients : List WsClientB) (msg : String) (msgType : String) :
    List (Nat × Option BroadcastEnvelope) × List Nat :=
  match clients with
  | [] => ([], [])
  | c :: rest =>
    let tail := broadcast rest msg msgType
    if c.writeFails then tail
    else ((c.id, mkEnvelope msgType msg) :: tail.1, c.id :: tail.2)

/-- Output writer handed to io.MultiWriter for the child's stdout or
stderr. A nil server pointer is modelled by none, a live server by the
list of its registered clients. -/

structure wsWriter where
  writerType : String
  server : Option (List WsClientB)

/-- Translation of wsWriter.Write: when the server pointer is non-nil,
broadcast the chunk to every registered client and append it to the log
ring; in every case return the full chunk length and a nil error. The
returned pair is the Go return value; the broadcast outcome and the
updated ring are the side effects. -/

def wsWriter.Write (b : wsWriter) (clients : List WsClientB) (ring : logRing) (p : String) :
    (Nat × Option String) × (List (Nat × Option BroadcastEnvelope) × List Nat) × logRing :=
  match b.server with
  | some _ => ((p.length, none), broadcast clients p b.writerType, ring.add p)
  | none => ((p.length, none), ([], clients.map (fun c => c.id)), ring)

/-! ## Password comparison cost (remote_shell_service.go passwordHandler, websocket ServeHTTP)

Comparison cost is made explicit by instrumenting each comparison loop
with a step count: one step per byte-comparison iteration. Bytes are
modelled as the natural-number values of the characters. -/

/-- Loop of crypto/subtle ConstantTimeCompare: fold the OR of the XOR of
every byte pair, one counted step per byte. -/

def ctCompareLoop : List Nat → List Nat → Nat × Nat
  | a :: as, b :: bs =>
    ((a ^^^ b) ||| (ctCompareLoop as bs).1, (ctCompareLoop as bs).2 + 1)
  | _, _ => (0, 0)

/-- Translation of crypto/subtle ConstantTimeCompare with a step count:
 0 immediately for different lengths, else 1 exactly when every byte
pair matched, after visiting all bytes. -/

def constantTimeCompareInstr (x y : List Nat) : Nat × Nat :=
  if x.length ≠ y.length then (0, 0)
  else ((if (ctCompareLoop x y).1 = 0 then 1 else 0), (ctCompareLoop x y).2)

/-- Translation of passwordHandler in remote_shell_service.go with a step
count: lengths are compared with ConstantTimeEq, contents with
ConstantTimeCompare, and the result is valid only when both return 1.
The cost is the byte-loop step count of the content comparison. -/

def passwordHandler (password expected : List Nat) : Bool × Nat :=
  (((if password.length = expected.length then (1 : Nat) else 0) == 1) &&
      ((constantTimeCompareInstr password expected).1 == 1),
    (constantTimeCompareInstr password expected).2)

/-- Loop of the Go runtime's string equality as used by the comparison
of the websocket token on the auth path: compare bytes in order and stop
at the first mismatch, one counted step per byte visited. -/

def goEqLoop : List Nat → List Nat → Bool × Nat
  | a :: as, b :: bs =>
    if a = b then ((goEqLoop as bs).1, (goEqLoop as bs).2 + 1) else (false, 1)
  | [], [] => (true, 0)
  | _, _ => (false, 0)

/-- Instrumented Go string inequality: strings of different lengths are
unequal without looking at the content; equal-length strings are compared
byte by byte with an early exit at the first mismatch. The result is the
value of the Go expression token not-equal password together with the
byte-comparison step count. -/

def wsTokenCompare (token expected : List Nat) : Bool × Nat :=
  if token.length ≠ expected.length then (true, 0)
  else (!(goEqLoop token expected).1, (goEqLoop token expected).2)

/-- Character values of a string, modelling its bytes. -/

def strBytes (s : String) : List Nat :=
  s.data.map Char.toNat

/-! ## Theorems -/

/-! Helper lemmas about the newline-suffix test. -/

theorem hasNewlineSuffix_append_newline (s : String) :
    hasNewlineSuffix (s ++ "\n") = true := by
  simp [hasNewlineSuffix, String.data_append]

theorem goJoin_pair (a b : String) : goJoin " " [a, b] = a ++ " " ++ b := by
  rfl

/-- C2 counterexample: the sendCommand direct-stdin path (used for the
shutdown announcement) writes the joined command words with no trailing
newline, so this injected write does not end in a newline. -/

theorem c2_counterexample :
    sendCommandStdinBytes ["say", "Server shutting down in 10 seconds"] =
      "say Server shutting down in 10 seconds" ∧
    hasNewlineSuffix
      (sendCommandStdinBytes ["say", "Server shutting down in 10 seconds"]) = false := by
  constructor
  · rfl
  · decide

/-- C2 (amended): lines injected through the SSH session path, the
websocket stdin path, the local stdin line relay, and stopViaConsole all
end in a newline; but the sendCommand direct-stdin path joins the command
words with spaces and appends nothing, so whenever its final word lacks a
trailing newline the injected write lacks one too. -/

theorem c2_amended (line content text sc a b : String) :
    hasNewlineSuffix (handleSessionLineBytes line) = true ∧
    hasNewlineSuffix (wsStdinBytes content) = true ∧
    hasNewlineSuffix (consoleInBytes text) = true ∧
    hasNewlineSuffix (stopViaConsoleBytes sc) = true ∧
    (hasNewlineSuffix b = false →
      hasNewlineSuffix (sendCommandStdinBytes [a, b]) = false) := by
  refine ⟨hasNewlineSuffix_append_newline line, ?_, hasNewlineSuffix_append_newline text,
    hasNewlineSuffix_append_newline sc, ?_⟩
  · unfold wsStdinBytes
    by_cases h : hasNewlineSuffix content
    · simp [h]
    · simp [h, hasNewlineSuffix_append_newline]
  · intro hb
    rw [sendCommandStdinBytes, goJoin_pair]
    simp only [hasNewlineSuffix, String.data_append] at hb ⊢
    rw [List.getLast?_append]
    cases hbl : b.data.getLast? with
    | some c =>
      rw [hbl] at hb
      simpa using hb
    | none =>
      rw [List.getLast?_append]
      have hsp : (" " : String).data = [' '] := rfl
      simp [hsp]

/-- C2 amended witness at concrete inputs. -/

theorem c2_amended_witness :
    hasNewlineSuffix (handleSessionLineBytes "list") = true ∧
    hasNewlineSuffix (wsStdinBytes "help") = true ∧
    hasNewlineSuffix (consoleInBytes "seed") = true ∧
    hasNewlineSuffix (stopViaConsoleBytes "stop") = true ∧
    hasNewlineSuffix (sendCommandStdinBytes ["say", "hi"]) = false := by
  have h := c2_amended "list" "help" "seed" "stop" "say" "hi"
  exact ⟨h.1, h.2.1, h.2.2.1, h.2.2.2.1, h.2.2.2.2 (by decide)⟩

/-- C1 counterexample: when cmd.Wait() ends with an unexpected error that
is not an exec.ExitError, the wait goroutine sends nothing on cmdExitChan,
so the supervisor does not exit with code 1 (it does not exit through
this path at all). -/

theorem c1_counterexample :
    supervisorExitCode WaitResult.failed = none ∧
    supervisorExitCode WaitResult.failed ≠ some 1 := by
  constructor
  · rfl
  · decide

/-- C1 (amended): on a normal child exit the supervisor exits with code
0; on an abnormal exit carrying an exit status it exits with the child's
exit code; on an unexpected wait error that is not an exit-status no exit
code is ever delivered to the main loop, so the supervisor does not exit
(in particular it does not exit with code 1). The main loop exits with
exactly the delivered code. -/

theorem c1_amended :
    supervisorExitCode WaitResult.normal = some 0 ∧
    (∀ c : Int, supervisorExitCode (WaitResult.exited c) = some c) ∧
    supervisorExitCode WaitResult.failed = none ∧
    (∀ (a : MainArgs) (st : MainState) (c : Int),
      mainStep a st (MainEvent.childExit c) = (st, [Effect.exitWith c])) := by
  refine ⟨rfl, fun c => rfl, rfl, fun a st c => rfl⟩

/-- C5: the termination controller arms a kill timer only for a nonzero
stop duration. With a stop duration of 0 no main-loop step ever arms a
kill timer (so the controller never force-kills the child), and with a
positive stop duration a terminate call arms exactly one kill timer,
whose single AfterFunc expiry kills the child exactly once when the child
has not exited within that duration. -/

theorem c5_kill_timer (a : MainArgs) (st : MainState) (ev : MainEvent)
    (hasRcon rconFails : Bool) (d : Int) (sc : String)
    (childExitedWithin : Int → Bool)
    (h0 : a.stopDuration = 0) (hd : 0 < d)
    (hch : childExitedWithin d = false) :
    ((mainStep a st ev).2.countP isArmKill) = 0 ∧
    killsFired (terminate hasRcon rconFails d sc) childExitedWithin = 1 := by
  constructor
  · cases ev with
    | sigterm =>
      by_cases hdelay : 0 < a.stopServerAnnounceDelay
      · simp [mainStep, hdelay, announceStop, sendCommand, isArmKill]
        by_cases hr : a.hasRcon <;> simp [hr, isArmKill]
      · simp [mainStep, hdelay, terminate, h0, isArmKill]
        by_cases hr : a.hasRcon <;> by_cases hf : a.rconFails <;> simp [hr, hf, isArmKill]
    | sigusr1 =>
      rcases st with ⟨_ | t⟩
      · simp [mainStep, terminate, h0, isArmKill]
        by_cases hr : a.hasRcon <;> by_cases hf : a.rconFails <;> simp [hr, hf, isArmKill]
      · cases t <;>
          simp [mainStep, terminate, h0, isArmKill] <;>
          (by_cases hr : a.hasRcon <;> by_cases hf : a.rconFails <;> simp [hr, hf, isArmKill])
    | announceTimerFired =>
      rcases st with ⟨_ | t⟩
      · simp [mainStep]
      · cases t <;>
          simp [mainStep, terminate, h0, isArmKill] <;>
          (by_cases hr : a.hasRcon <;> by_cases hf : a.rconFails <;> simp [hr, hf, isArmKill])
    | pipeErr => simp [mainStep]
    | childExit c => simp [mainStep, isArmKill]
  · have hdne : d ≠ 0 := by omega
    unfold killsFired terminate
    by_cases hr : hasRcon <;> by_cases hf : rconFails <;>
      simp [hr, hf, hdne, hch, List.countP_append, List.countP_cons]

/-- C5 witness at concrete inputs: stop duration 0 never arms, stop
duration 5 with a child that has not exited is killed exactly once. -/

theorem c5_witness :
    ((mainStep ⟨0, 0, "stop", false, false⟩ ⟨none⟩ MainEvent.sigterm).2.countP isArmKill) = 0 ∧
    killsFired (terminate false false 5 "stop") (fun _ => false) = 1 :=
  c5_kill_timer ⟨0, 0, "stop", false, false⟩ ⟨none⟩ MainEvent.sigterm
    false false 5 "stop" (fun _ => false) rfl (by decide) rfl

/-- C6: receiving SIGUSR1 when the announce-delay timer has already fired
(timer.Stop() returns false) is a no-op: the main-loop state is unchanged
and no effect is produced, in particular no second stop command. -/

theorem c6_sigusr1_noop (a : MainArgs) (st : MainState)
    (h : st.timer = some TimerState.fired) :
    mainStep a st MainEvent.sigusr1 = (st, []) := by
  rcases st with ⟨t⟩
  simp only [MainState.mk.injEq] at h
  subst h
  rfl

/-- C6 witness at a concrete fired-timer state. -/

theorem c6_witness :
    mainStep ⟨10, 5, "stop", false, false⟩ ⟨some TimerState.fired⟩ MainEvent.sigusr1 =
      (⟨some TimerState.fired⟩, []) :=
  c6_sigusr1_noop ⟨10, 5, "stop", false, false⟩ ⟨some TimerState.fired⟩ rfl

/-- C7 counterexample: a read (copy) error is reported on the error
channel but does not terminate the loop, contradicting the claim that
every read error causes the loop to terminate. -/

theorem c7_counterexample :
    namedPipeReports [PipeStep.copyFail] = 1 ∧
    namedPipeStopped [PipeStep.copyFail] = false := by
  constructor <;> rfl

/-- C7 (amended): an error opening the FIFO is reported exactly once and
terminates the loop; an error reading (copying) from it is reported
exactly once per occurrence but the loop continues with the next
open/copy iteration; either way the supervisor merely logs the reported
error, leaving its state unchanged and producing no effect (the child
process keeps running). -/

theorem c7_amended (rest : List PipeStep) (a : MainArgs) (st : MainState) :
    namedPipeReports (PipeStep.openFail :: rest) = 1 ∧
    namedPipeStopped (PipeStep.openFail :: rest) = true ∧
    namedPipeReports (PipeStep.copyFail :: rest) = 1 + namedPipeReports rest ∧
    namedPipeStopped (PipeStep.copyFail :: rest) = namedPipeStopped rest ∧
    mainStep a st MainEvent.pipeErr = (st, []) := by
  exact ⟨rfl, rfl, rfl, rfl, rfl⟩

/-- C4 (code bug): with token auth enabled, a Sec-WebSocket-Protocol
header consisting of exactly the expected protocol name with no token
element after it (the token-absent case) makes extractAuthTokenFromProtocols
read one element past the end of the protocol list, because its bounds
guard uses a strict comparison that can never fire; the handler panics
instead of answering HTTP 401 with the JSON auth-error body. Mismatched
or missing-protocol headers do produce the 401 outcome, and no session is
registered in either case. -/

theorem c4_token_absent_panics :
    extractAuthTokenFromProtocols "mc-server-runner-ws-v1" "mc-server-runner-ws-v1" = none ∧
    serveHTTPAuthPhase true "" [] false "mc-server-runner-ws-v1" "minecraft" =
      AuthOutcome.panicked ∧
    serveHTTPAuthPhase true "" [] false "mc-server-runner-ws-v1, wrongpw" "minecraft" =
      AuthOutcome.unauthorized401 ⟨"auth_err", "invalid password"⟩ ∧
    serveHTTPAuthPhase true "" [] false "" "minecraft" =
      AuthOutcome.unauthorized401 ⟨"auth_err", "invalid password"⟩ ∧
    serveHTTPRegister AuthOutcome.panicked [] 7 = [] ∧
    serveHTTPRegister (AuthOutcome.unauthorized401 ⟨"auth_err", "invalid password"⟩) [] 7 = [] := by
  refine ⟨?_, ?_, ?_, ?_, rfl, rfl⟩ <;> decide

/-- Helper: broadcast over clients whose writes all succeed delivers the
envelope to every client in order and removes none of them. -/

theorem broadcast_all_ok (l : List WsClientB) (msg t : String)
    (h : ∀ c ∈ l, c.writeFails = false) :
    broadcast l msg t =
      (l.map (fun c => (c.id, mkEnvelope t msg)), l.map (fun c => c.id)) := by
  induction l with
  | nil => rfl
  | cons c rest ih =>
    have hc : c.writeFails = false := h c (List.mem_cons_self c rest)
    have hrest : ∀ d ∈ rest, d.writeFails = false :=
      fun d hd => h d (List.mem_cons_of_mem c hd)
    simp [broadcast, hc, ih hrest]

/-- C8: when exactly one registered client's write fails during a
broadcast, the message is still delivered to every other client, and
exactly the failing client is removed from the registry, leaving all
other registrations unchanged. -/

theorem c8_broadcast (pre post : List WsClientB) (f : WsClientB) (msg t : String)
    (hf : f.writeFails = true)
    (hpre : ∀ c ∈ pre, c.writeFails = false)
    (hpost : ∀ c ∈ post, c.writeFails = false) :
    broadcast (pre ++ f :: post) msg t =
      ((pre ++ post).map (fun c => (c.id, mkEnvelope t msg)),
        (pre ++ post).map (fun c => c.id)) := by
  induction pre with
  | nil =>
    simp only [List.nil_append]
    simp [broadcast, hf, broadcast_all_ok post msg t hpost]
  | cons c rest ih =>
    have hc : c.writeFails = false := hpre c (List.mem_cons_self c rest)
    have hrest : ∀ d ∈ rest, d.writeFails = false :=
      fun d hd => hpre d (List.mem_cons_of_mem c hd)
    simp only [List.cons_append]
    simp [broadcast, hc, ih hrest]

/-- C8 witness: three clients, the middle one failing. -/

theorem c8_witness :
    broadcast [⟨1, false⟩, ⟨2, true⟩, ⟨3, false⟩] "line" "stdout" =
      ([(1, mkEnvelope "stdout" "line"), (3, mkEnvelope "stdout" "line")], [1, 3]) := by
  have h := c8_broadcast [⟨1, false⟩] [⟨3, false⟩] ⟨2, true⟩ "line" "stdout"
    rfl (by intro c hc; simp at hc; simp [hc]) (by intro c hc; simp at hc; simp [hc])
  simpa using h

/-- C10: wsWriter.Write always returns the full chunk length and a nil
error, for every chunk, every client registry (registered clients may all
fail their network writes) and every log ring of positive capacity; the
process-output fan-out through io.MultiWriter therefore can never be
failed or truncated by the websocket consumer. -/

theorem c10_wswriter_write (b : wsWriter) (clients : List WsClientB) (ring : logRing)
    (p : String) (_hcap : 1 ≤ ring.cap) :
    (wsWriter.Write b clients ring p).1 = (p.length, none) := by
  cases hb : b.server <;> simp [wsWriter.Write, hb]

/-- C10 witness: a ring of capacity 4 and a registry whose only client
fails its write; the write still reports full success. -/

theorem c10_witness :
    (wsWriter.Write ⟨"stdout", some [⟨1, true⟩]⟩ [⟨1, true⟩] (newLogRing 4) "hello\n").1 =
      ("hello\n".length, none) :=
  c10_wswriter_write ⟨"stdout", some [⟨1, true⟩]⟩ [⟨1, true⟩] (newLogRing 4) "hello\n"
    (by decide)

/-- Helper: the step count of the ConstantTimeCompare byte loop depends
only on the lengths of its inputs. -/

theorem ctCompareLoop_steps (x y : List Nat) :
    (ctCompareLoop x y).2 = min x.length y.length := by
  induction x generalizing y with
  | nil => cases y <;> simp [ctCompareLoop]
  | cons a as ih =>
    cases y with
    | nil => simp [ctCompareLoop]
    | cons b bs =>
      simp [ctCompareLoop, ih bs]
      omega

/-- C9 counterexample: the websocket token comparison (ordinary Go string
inequality against the password) stops at the first mismatching byte, so
two equal-length candidate tokens give different comparison costs against
the default password, refuting content-independent cost for the
websocket auth path. -/

theorem c9_counterexample :
    (strBytes "aaaaaaaaa").length = (strBytes "minecrafX").length ∧
    (wsTokenCompare (strBytes "aaaaaaaaa") (strBytes "minecraft")).2 = 1 ∧
    (wsTokenCompare (strBytes "minecrafX") (strBytes "minecraft")).2 = 9 := by
  refine ⟨?_, ?_, ?_⟩ <;> decide

/-- C9 (amended): the SSH password comparison (passwordHandler) compares
length and content separately with constant-time primitives, so its cost
is determined by the lengths alone: any two candidate passwords of equal
length incur exactly the same comparison cost against any expected
password. The websocket token comparison is an ordinary string comparison
without this property. -/

theorem c9_ssh_constant_time (p q e : List Nat) (hlen : p.length = q.length) :
    (passwordHandler p e).2 = (passwordHandler q e).2 := by
  simp only [passwordHandler, constantTimeCompareInstr]
  by_cases h : p.length = e.length
  · have h2 : q.length = e.length := by omega
    simp [h, h2, ctCompareLoop_steps, hlen]
  · have h2 : q.length ≠ e.length := by omega
    simp [h, h2]

/-- C9 witness: two distinct equal-length passwords cost the same against
the default expected password on the SSH path. -/

theorem c9_witness :
    (passwordHandler (strBytes "aaaaaaaaa") (strBytes "minecraft")).2 =
      (passwordHandler (strBytes "minecrafX") (strBytes "minecraft")).2 :=
  c9_ssh_constant_time (strBytes "aaaaaaaaa") (strBytes "minecrafX")
    (strBytes "minecraft") (by decide)

/-! ## Ring buffer correctness (C3) -/

/-- Helper: adding s to residue p of the cycle cannot collide with
residue p shifted by a nonzero amount below the capacity. -/

theorem mod_shift_ne (C p s : Nat) (hp : p < C) (hs : 0 < s) (hsC : s < C) :
    (p + s) % C ≠ p := by
  intro h
  have hme : Nat.ModEq C (p + s) (p + 0) := by
    unfold Nat.ModEq
    simpa [Nat.mod_eq_of_lt hp] using h
  have hs0 : Nat.ModEq C s 0 := Nat.ModEq.add_left_cancel' p hme
  have hz : s % C = 0 := by simpa [Nat.ModEq] using hs0
  rw [Nat.mod_eq_of_lt hsC] at hz
  omega

/-- Invariant of the ring after adding a list of lines to a fresh ring of
capacity C: the pointer sits at the residue of the number of lines, and
reading the cycle from the node after the pointer gives the leading nil
padding followed by the most recent min(N, C) lines, oldest first. -/

theorem logRing_addAll_inv (C : Nat) (hC : 1 ≤ C) (ls : List String) :
    (logRing.addAll (newLogRing C) ls).cap = C ∧
    (logRing.addAll (newLogRing C) ls).idx = ls.length % C ∧
    (List.range C).map
        (fun t => (logRing.addAll (newLogRing C) ls).buf ((ls.length % C + 1 + t) % C)) =
      List.replicate (C - min ls.length C) none ++ (ls.drop (ls.length - C)).map some := by
  induction ls using List.reverseRecOn with
  | nil =>
    refine ⟨rfl, (Nat.zero_mod C).symm, ?_⟩
    simp [logRing.addAll, newLogRing]
  | append_singleton ls x ih =>
    obtain ⟨hcap, hidx, hrot⟩ := ih
    have hfold : logRing.addAll (newLogRing C) (ls ++ [x])
        = logRing.add (logRing.addAll (newLogRing C) ls) x := by
      simp [logRing.addAll, List.foldl_append]
    have hlen : (ls ++ [x]).length = ls.length + 1 := by simp
    obtain ⟨k, hCk⟩ : ∃ k, C = k + 1 := ⟨C - 1, by omega⟩
    have hplt : (ls.length + 1) % C < C := Nat.mod_lt _ (by omega)
    refine ⟨by rw [hfold]; simpa [logRing.add] using hcap, ?_, ?_⟩
    · rw [hfold, hlen]
      show ((logRing.addAll (newLogRing C) ls).idx + 1) % (logRing.addAll (newLogRing C) ls).cap
          = (ls.length + 1) % C
      rw [hidx, hcap, Nat.mod_add_mod]
    · rw [hfold, hlen]
      have hbuf : ∀ j, (logRing.add (logRing.addAll (newLogRing C) ls) x).buf j
          = if j = (ls.length + 1) % C then some x
            else (logRing.addAll (newLogRing C) ls).buf j := by
        intro j
        show (if j = ((logRing.addAll (newLogRing C) ls).idx + 1)
                % (logRing.addAll (newLogRing C) ls).cap then some x
              else (logRing.addAll (newLogRing C) ls).buf j) = _
        rw [hidx, hcap, Nat.mod_add_mod]
      have hnew : (List.range C).map
          (fun t => (logRing.add (logRing.addAll (newLogRing C) ls) x).buf
            (((ls.length + 1) % C + 1 + t) % C)) =
          ((List.range C).map
            (fun t => (logRing.addAll (newLogRing C) ls).buf ((ls.length % C + 1 + t) % C))).drop 1
            ++ [some x] := by
        have hsplitL : List.range C = List.range k ++ [k] := by
          simp [hCk, List.range_succ]
        have hlastArg : ((ls.length + 1) % C + 1 + k) % C = (ls.length + 1) % C := by
          have h1 : (ls.length + 1) % C + 1 + k = (ls.length + 1) % C + C := by omega
          rw [h1, Nat.add_mod_right, Nat.mod_eq_of_lt hplt]
        have hmid : (List.range k).map
            (fun t => (logRing.add (logRing.addAll (newLogRing C) ls) x).buf
              (((ls.length + 1) % C + 1 + t) % C)) =
            (List.range k).map
              (fun t => (logRing.addAll (newLogRing C) ls).buf
                ((ls.length % C + 1 + (t + 1)) % C)) := by
          apply List.map_congr_left
          intro t ht
          have htk : t < k := List.mem_range.mp ht
          have hassoc : (ls.length + 1) % C + 1 + t = (ls.length + 1) % C + (1 + t) := by omega
          have hne : ((ls.length + 1) % C + 1 + t) % C ≠ (ls.length + 1) % C := by
            rw [hassoc]
            exact mod_shift_ne C ((ls.length + 1) % C) (1 + t) hplt (by omega) (by omega)
          rw [hbuf, if_neg hne]
          congr 1
          have h2 : ls.length % C + 1 + (t + 1) = ls.length % C + (t + 2) := by omega
          rw [hassoc, h2, Nat.mod_add_mod, Nat.mod_add_mod]
          congr 1
          omega
        have hRdrop : ((List.range C).map
            (fun t => (logRing.addAll (newLogRing C) ls).buf ((ls.length % C + 1 + t) % C))).drop 1
            = (List.range k).map
              (fun t => (logRing.addAll (newLogRing C) ls).buf
                ((ls.length % C + 1 + (t + 1)) % C)) := by
          rw [hCk, List.range_succ_eq_map, List.map_cons, List.drop_succ_cons, List.drop_zero,
            List.map_map]
          simp [Function.comp, Nat.succ_eq_add_one]
        rw [hRdrop, hsplitL, List.map_append, hmid]
        congr 1
        simp only [List.map_cons, List.map_nil]
        rw [hbuf, if_pos hlastArg]
      rw [hnew, hrot]
      rcases Nat.lt_or_ge ls.length C with hNC | hNC
      · have hm : min ls.length C = ls.length := by omega
        have h0 : ls.length - C = 0 := by omega
        obtain ⟨m, hmm⟩ : ∃ m, C - ls.length = m + 1 := ⟨C - ls.length - 1, by omega⟩
        have hmin1 : min (ls.length + 1) C = ls.length + 1 := by omega
        have hC1 : C - (ls.length + 1) = m := by omega
        have hd1 : ls.length + 1 - C = 0 := by omega
        rw [hm, h0, hmm, hmin1, hC1, hd1, List.drop_zero, List.drop_zero]
        simp [List.replicate_succ, List.append_assoc]
      · have hm : min ls.length C = C := by omega
        have hmin1 : min (ls.length + 1) C = C := by omega
        have hd2 : ls.length + 1 - C ≤ ls.length := by omega
        rw [hm, hmin1, Nat.sub_self]
        simp only [List.replicate_zero, List.nil_append]
        rw [← List.map_drop, List.drop_drop, List.drop_append_of_le_length hd2, List.map_append]
        congr 3
        omega

/-- Helper: collecting the non-nil values of an all-nil segment gives
nothing. -/

theorem filterMap_id_replicate_none (n : Nat) :
    (List.replicate n (none : Option String)).filterMap id = [] := by
  induction n with
  | zero => rfl
  | succ m ih => simp [List.replicate_succ, List.filterMap_cons, ih]

/-- Helper: collecting the non-nil values of a fully populated segment
gives exactly its values. -/

theorem filterMap_id_map_some (l : List String) : (l.map some).filterMap id = l := by
  induction l with
  | nil => rfl
  | cons a l ih => simp [List.filterMap_cons, ih]

/-- C3: for every capacity C of at least 1, adding N lines to a fresh
log ring and reading it back yields exactly those N lines in insertion
order when N is at most C, and exactly the most recent C lines, oldest
first, when N exceeds C. -/

theorem c3_ring_buffer (C : Nat) (hC : 1 ≤ C) (ls : List String) :
    (ls.length ≤ C → (logRing.addAll (newLogRing C) ls).getAll = ls) ∧
    (C < ls.length →
      (logRing.addAll (newLogRing C) ls).getAll = ls.drop (ls.length - C)) := by
  obtain ⟨hcap, hidx, hrot⟩ := logRing_addAll_inv C hC ls
  have hget : (logRing.addAll (newLogRing C) ls).getAll
      = (List.replicate (C - min ls.length C) (none : Option String)
          ++ (ls.drop (ls.length - C)).map some).filterMap id := by
    unfold logRing.getAll
    rw [hcap, hidx, hrot]
  have hfil : ((List.replicate (C - min ls.length C) (none : Option String))
      ++ (ls.drop (ls.length - C)).map some).filterMap id = ls.drop (ls.length - C) := by
    rw [List.filterMap_append, filterMap_id_replicate_none, filterMap_id_map_some,
      List.nil_append]
  constructor
  · intro hle
    have h0 : ls.length - C = 0 := by omega
    rw [hget, hfil, h0, List.drop_zero]
  · intro _
    rw [hget, hfil]

/-- C3 witness: capacity 2 with three lines keeps the last two, capacity
5 with three lines keeps all three in order. -/

theorem c3_witness :
    (logRing.addAll (newLogRing 2) ["a", "b", "c"]).getAll = ["b", "c"] ∧
    (logRing.addAll (newLogRing 5) ["a", "b", "c"]).getAll = ["a", "b", "c"] := by
  constructor
  · have h := (c3_ring_buffer 2 (by decide) ["a", "b", "c"]).2 (by decide)
    simpa using h
  · exact (c3_ring_buffer 5 (by decide) ["a", "b", "c"]).1 (by decide)
